import Mathlib

/-!
Verification development for the Freshchat-to-OpenAI webhook bridge
(`src/server.js`).  The components of the server are shallowly embedded as
executable Lean functions:

* the escalation parser (lines 189-203 of `server.js`): JS string
  operations `includes`, `match(/ESCALATE_TO_HUMAN:\s*(.+)/)`,
  `replace(/ESCALATE_TO_HUMAN:.+/g, "")` and `trim()` are modeled over
  `List Char`, with the JS semantics of `\s` (whitespace), `.`
  (any char except line terminators) and greedy matching with
  backtracking;
* the assistant client poll loop (lines 168-187): a bounded loop,
  embedded with an explicit fuel argument equal to the remaining
  attempt budget, so that it is structurally recursive and computable;
* the chat-platform client (lines 39-143) and the orchestration
  routine `processMessageAsync` (lines 224-262) and webhook handler
  (lines 265-306): remote services are oracles supplied through
  environment records, and each function returns the ordered list of
  observable events (deliveries, escalations, store accesses, log
  entries) next to its result.
-/

/-- JS line terminators: the characters NOT matched by `.` in a JS regex
(`\n`, `\r`, U+2028, U+2029). -/
def isJsDotNL (c : Char) : Bool :=
  c = '\n' || c = '\r' || c = '\u2028' || c = '\u2029'

/-- JS whitespace, as matched by `\s` and trimmed by `String.prototype.trim`:
tab, LF, VT, FF, CR, space, NBSP, BOM, the Unicode `Zs` separators and the
line separators U+2028/U+2029. -/
def isJsWS (c : Char) : Bool :=
  c = ' ' || c = '\t' || c = '\n' || c = '\x0b' || c = '\x0c' || c = '\r' ||
  c = '\u00A0' || c = '\u1680' || ('\u2000' ≤ c && c ≤ '\u200A') ||
  c = '\u2028' || c = '\u2029' || c = '\u202F' || c = '\u205F' ||
  c = '\u3000' || c = '\uFEFF'

/-- `hasSub sub l` is JS `l.includes(sub)`: does `sub` occur contiguously in `l`. -/
def hasSub (sub : List Char) : List Char → Bool
  | [] => sub.isPrefixOf []
  | c :: t => sub.isPrefixOf (c :: t) || hasSub sub t

/-- The literal escalation marker token tested by `includes` in `server.js`. -/
def esc_marker : List Char := "ESCALATE_TO_HUMAN".toList

/-- The marker followed by the colon, as required by both regexes in `server.js`. -/
def esc_markerColon : List Char := "ESCALATE_TO_HUMAN:".toList

/-- Fixed hand-off message substituted when the cleaned reply is empty
(line 201 of `server.js`). -/
def handoffMsg : List Char :=
  "Let me connect you with one of our team members who can better assist you.".toList

/-- Greedy `.+`: the maximal run of non-line-terminator characters. -/
def takeLine (l : List Char) : List Char := l.takeWhile (fun c => !(isJsDotNL c))

/-- Skip past a greedy `.+` match: drop characters up to (not including) the
first line terminator. -/
def dropLine : List Char → List Char
  | [] => []
  | c :: t => if isJsDotNL c then c :: t else dropLine t

/-- Does the list start with a character that `.` can match (so `.+` succeeds)? -/
def lineHead : List Char → Bool
  | [] => false
  | c :: _ => !(isJsDotNL c)

/-- JS `trim()`: strip JS whitespace from both ends. -/
def jsTrim (l : List Char) : List Char := (l.dropWhile isJsWS).rdropWhile isJsWS

/-- The part of the regex `/ESCALATE_TO_HUMAN:\s*(.+)/` after the colon:
greedy `\s*` with backtracking, then the captured greedy `(.+)`.
Returns the captured group on success. -/
def matchTail : List Char → Option (List Char)
  | [] => none
  | c :: t =>
    if isJsWS c then
      match matchTail t with
      | some r => some r
      | none => if isJsDotNL c then none else some (takeLine (c :: t))
    else
      if isJsDotNL c then none else some (takeLine (c :: t))

/-- JS `raw.match(/ESCALATE_TO_HUMAN:\s*(.+)/)`: scan for the leftmost
position where the full regex matches and return the captured group. -/
def findReason : List Char → Option (List Char)
  | [] => none
  | c :: t =>
    if esc_markerColon.isPrefixOf (c :: t) then
      match matchTail ((c :: t).drop 18) with
      | some cap => some cap
      | none => findReason t
    else findReason t

/-- One pass of JS `raw.replace(/ESCALATE_TO_HUMAN:.+/g, "")`, with fuel
bounding the recursion depth (the wrapper `replAll` supplies
`l.length`, which always suffices: each step consumes at least one
character).  A match requires the literal `ESCALATE_TO_HUMAN:` followed
by at least one non-line-terminator character; the greedy `.+` then
eats to the end of the line. -/
def replAllGo : Nat → List Char → List Char
  | 0, _ => []
  | _ + 1, [] => []
  | fuel + 1, c :: t =>
    if esc_markerColon.isPrefixOf (c :: t) ∧ lineHead ((c :: t).drop 18) then
      replAllGo fuel (dropLine ((c :: t).drop 18))
    else c :: replAllGo fuel t

/-- JS `raw.replace(/ESCALATE_TO_HUMAN:.+/g, "")`. -/
def replAll (l : List Char) : List Char := replAllGo l.length l

/-- Result of the escalation-parsing step of `getAssistantResponse`
(lines 189-203 of `server.js`). -/
structure ParseResult where
  cleanReply : List Char
  needsEscalation : Bool
  escalationReason : List Char
deriving DecidableEq, Repr

/-- The escalation-parsing step of `getAssistantResponse`
(lines 189-203 of `server.js`), verbatim:
`needsEscalation = raw.includes("ESCALATE_TO_HUMAN")`; if so, the reason
is the trimmed capture of `/ESCALATE_TO_HUMAN:\s*(.+)/` (defaulting to
"User request" when the regex does not match), the reply is
`raw.replace(/ESCALATE_TO_HUMAN:.+/g, "").trim()`, and the fixed
hand-off message is substituted when that is empty. -/
def parseEsc (assistantMessage : List Char) : ParseResult :=
  let needsEscalation := hasSub esc_marker assistantMessage
  if needsEscalation then
    let escalationReason :=
      match findReason assistantMessage with
      | some cap => jsTrim cap
      | none => "User request".toList
    let cleanMessage := jsTrim (replAll assistantMessage)
    { cleanReply := if cleanMessage = [] then handoffMsg else cleanMessage,
      needsEscalation := true,
      escalationReason := escalationReason }
  else
    { cleanReply := assistantMessage,
      needsEscalation := false,
      escalationReason := [] }

/-- Errors thrown inside the server: either an HTTP client error carrying
the optional response status (`error.response?.status` of an axios
failure), or a plain `Error(message)`. -/
inductive Err where
  | http (status : Option Nat)
  | text (s : String)
deriving DecidableEq, Repr

/-- `maxAttempts = 60` from line 170 of `server.js`. -/
def maxAttempts : Nat := 60

/-- The poll loop of `getAssistantResponse` (lines 172-180 of `server.js`):
`while (status != completed and attempts < maxAttempts)` sleep 1s, retrieve
the run again, increment `attempts`, and throw on a `failed` or `expired`
status.  `statuses n` is the status returned by the n-th run retrieval
(retrieval 0 happens before the loop).  The fuel argument equals
`maxAttempts - attempts`, making the loop guard `attempts < maxAttempts`
the same as `0 < fuel`; the wrapper `pollLoop` keeps them in sync. -/
def pollGo (statuses : Nat → String) : Nat → String → Nat → Except Err (String × Nat)
  | 0, st, attempts => .ok (st, attempts)
  | fuel + 1, st, attempts =>
    if st = "completed" then .ok (st, attempts)
    else
      let st' := statuses (attempts + 1)
      if st' = "failed" ∨ st' = "expired" then
        .error (Err.text ("Assistant run " ++ st'))
      else
        pollGo statuses fuel st' (attempts + 1)

/-- The poll loop started at a given status and attempt count. -/
def pollLoop (statuses : Nat → String) (st : String) (attempts : Nat) :
    Except Err (String × Nat) :=
  pollGo statuses (maxAttempts - attempts) st attempts

/-- Number of loop iterations (in-loop retrievals / 1-second sleeps) the
poll loop executes; same recursion structure as `pollGo`. -/
def pollItersGo (statuses : Nat → String) : Nat → String → Nat → Nat
  | 0, _, _ => 0
  | fuel + 1, st, attempts =>
    if st = "completed" then 0
    else
      if statuses (attempts + 1) = "failed" ∨ statuses (attempts + 1) = "expired" then 1
      else 1 + pollItersGo statuses fuel (statuses (attempts + 1)) (attempts + 1)

/-- Number of in-loop retrievals for a run whose initial retrieval is
`statuses 0`. -/
def pollIters (statuses : Nat → String) : Nat :=
  pollItersGo statuses maxAttempts (statuses 0) 0

/-- Lines 168-187 of `server.js` after the run is created: the initial
retrieval, the poll loop, the `attempts >= maxAttempts` timeout check,
and the fetch of the most recent thread message (`latest`). -/
def getReplyPoll (statuses : Nat → String) (latest : List Char) : Except Err (List Char) :=
  match pollLoop statuses (statuses 0) 0 with
  | .error e => .error e
  | .ok (_, attempts) =>
    if attempts ≥ maxAttempts then .error (Err.text "Assistant response timeout")
    else .ok latest

/-- Outcome the chat platform gives one message-delivery POST. -/
inductive SendOutcome where
  | ok (data : String)
  | err (status : Option Nat)
deriving DecidableEq, Repr

/-- Oracle for the chat-platform REST API: the responses it would give to
the primary-payload POST, the alternative-payload POST, and the
conversation-assignment PUT. -/
structure FcEnv where
  sendPrimary : String → List Char → SendOutcome
  sendAlt : String → List Char → SendOutcome
  assign : String → Except Err Unit

/-- Observable events of a turn, in execution order. -/
inductive Ev where
  | respond (status : Nat)
  | storeGet (conversationId : String)
  | storeSet (conversationId threadId : String)
  | threadCreate (threadId : String)
  | threadUse (supplied : Option String) (used : String)
  | deliverPrimary (conversationId : String) (text : List Char)
  | deliverAlt (conversationId : String) (text : List Char)
  | assign (conversationId : String)
  | logError (e : Err)
  | logFallback (e : Err)
deriving DecidableEq, Repr

/-- `sendFreshchatMessage` (lines 39-86) plus `sendFreshchatMessageAlt`
(lines 89-120) of `server.js`: POST the primary payload; if that throws
with `error.response?.status === 400`, POST once more with the
alternative payload; any other failure, and a failure of the retry,
propagates.  Returns the delivery attempts made (in order) and the
final result. -/
def sendT (env : FcEnv) (conversationId : String) (message : List Char) :
    List Ev × Except Err String :=
  match env.sendPrimary conversationId message with
  | SendOutcome.ok d => ([Ev.deliverPrimary conversationId message], .ok d)
  | SendOutcome.err s =>
    if s = some 400 then
      match env.sendAlt conversationId message with
      | SendOutcome.ok d =>
        ([Ev.deliverPrimary conversationId message, Ev.deliverAlt conversationId message], .ok d)
      | SendOutcome.err s' =>
        ([Ev.deliverPrimary conversationId message, Ev.deliverAlt conversationId message],
         .error (Err.http s'))
    else ([Ev.deliverPrimary conversationId message], .error (Err.http s))

/-- `assignToHumanAgent` (lines 123-143 of `server.js`): one PUT, failure
propagates, no retry. -/
def assignT (env : FcEnv) (conversationId : String) : List Ev × Except Err Unit :=
  ([Ev.assign conversationId], env.assign conversationId)

/-- Oracle for the assistant provider: result of a thread-creation call,
of the user-message creation, of the run creation, the run status
returned by each retrieval, and the newest thread message. -/
structure AsstEnv where
  createThread : Except Err String
  msgCreate : List Char → Except Err Unit
  runCreate : Except Err Unit
  statuses : Nat → String
  latestMessage : List Char

/-- Return value of `getAssistantResponse` (lines 210-215 of `server.js`). -/
structure AssistantResult where
  response : List Char
  threadId : String
  needsEscalation : Bool
  escalationReason : List Char
deriving DecidableEq, Repr

/-- Body of `getAssistantResponse` once the thread id `tid` is settled
(lines 157-215 of `server.js`): create the user message, create the run,
poll to completion, fetch the newest message, parse it for the
escalation marker.  `pre` carries the thread-creation event if any. -/
def getAssistantCore (env : AsstEnv) (userMessage : List Char) (supplied : Option String)
    (tid : String) (pre : List Ev) : List Ev × Except Err AssistantResult :=
  let tr := pre ++ [Ev.threadUse supplied tid]
  match env.msgCreate userMessage with
  | .error e => (tr, .error e)
  | .ok _ =>
    match env.runCreate with
    | .error e => (tr, .error e)
    | .ok _ =>
      match getReplyPoll env.statuses env.latestMessage with
      | .error e => (tr, .error e)
      | .ok raw =>
        let p := parseEsc raw
        (tr, .ok { response := p.cleanReply, threadId := tid,
                   needsEscalation := p.needsEscalation,
                   escalationReason := p.escalationReason })

/-- `getAssistantResponse(userMessage, threadId)` (lines 146-221 of
`server.js`): create a fresh thread when no id is supplied, otherwise
use the supplied id verbatim; then run the turn.  The internal
`catch` logs and rethrows, so errors propagate unchanged. -/
def getAssistantResponseT (env : AsstEnv) (userMessage : List Char) (threadId : Option String) :
    List Ev × Except Err AssistantResult :=
  match threadId with
  | none =>
    match env.createThread with
    | .error e => ([], .error e)
    | .ok nid => getAssistantCore env userMessage none nid [Ev.threadCreate nid]
  | some t => getAssistantCore env userMessage (some t) t []

/-- The process-wide `conversationThreads` map (line 29 of `server.js`). -/
def Store : Type := String → Option String

/-- `conversationThreads.set(conversationId, threadId)`. -/
def setStore (store : Store) (conversationId threadId : String) : Store :=
  fun k => if k = conversationId then some threadId else store k

/-- The two remote services together. -/
structure Env where
  asst : AsstEnv
  fc : FcEnv

/-- Apology text sent by the catch block of `processMessageAsync`
(lines 253-256 of `server.js`). -/
def apologyMsg : List Char :=
  "I\x27m having trouble processing your request right now. Let me connect you with a human agent.".toList

/-- Follow-up notice sent after an escalation (lines 240-243 of `server.js`). -/
def followUpMsg : List Char :=
  "A team member will be with you shortly. Thank you for your patience!".toList

/-- The `try` block of `processMessageAsync` (lines 225-247 of
`server.js`): look the thread up, run the assistant turn, store the
returned thread id, deliver the reply, and on an escalation flag assign
a human and deliver the follow-up notice.  Returns the store as mutated
so far, the events so far, and `some e` when the block threw `e` at
that point (`none` when it ran to completion). -/
def processBody (env : Env) (store : Store) (conversationId : String)
    (messageContent : List Char) : Store × List Ev × Option Err :=
  let tid := store conversationId
  let ev0 := [Ev.storeGet conversationId]
  match getAssistantResponseT env.asst messageContent tid with
  | (trA, .error e) => (store, ev0 ++ trA, some e)
  | (trA, .ok res) =>
    let store' := setStore store conversationId res.threadId
    let ev1 := ev0 ++ trA ++ [Ev.storeSet conversationId res.threadId]
    match sendT env.fc conversationId res.response with
    | (trS, .error e) => (store', ev1 ++ trS, some e)
    | (trS, .ok _) =>
      if res.needsEscalation then
        match assignT env.fc conversationId with
        | (trG, .error e) => (store', ev1 ++ trS ++ trG, some e)
        | (trG, .ok _) =>
          match sendT env.fc conversationId followUpMsg with
          | (trF, .error e) => (store', ev1 ++ trS ++ trG ++ trF, some e)
          | (trF, .ok _) => (store', ev1 ++ trS ++ trG ++ trF, none)
      else (store', ev1 ++ trS, none)

/-- `processMessageAsync` (lines 224-262 of `server.js`): run the body;
on any error, log it and run the fallback `try` (send the fixed apology,
then assign a human agent), whose own failure is only logged.  The
function always returns; no error propagates to the caller. -/
def processMessageAsync (env : Env) (store : Store) (conversationId : String)
    (messageContent : List Char) : Store × List Ev :=
  match processBody env store conversationId messageContent with
  | (store', tr, none) => (store', tr)
  | (store', tr, some e) =>
    match sendT env.fc conversationId apologyMsg with
    | (trS, .ok _) =>
      match assignT env.fc conversationId with
      | (trG, .ok _) => (store', tr ++ Ev.logError e :: (trS ++ trG))
      | (trG, .error e2) => (store', tr ++ Ev.logError e :: (trS ++ trG ++ [Ev.logFallback e2]))
    | (trS, .error e2) => (store', tr ++ Ev.logError e :: (trS ++ [Ev.logFallback e2]))

/-- An inbound webhook payload after `express.json` parsing, carrying the
fields the handler destructures: `action`, `actor?.actor_type`,
`data?.message?.conversation_id` and
`data?.message?.message_parts?.[0]?.text?.content` (absent fields are
`none`). -/
structure WebhookBody where
  action : Option String
  actorType : Option String
  conversationId : Option String
  messageContent : Option (List Char)
deriving DecidableEq, Repr

/-- The `POST /freshchat-webhook` handler (lines 265-306 of `server.js`):
respond `200` first; then, only for `action == "message_create"` with
`actor_type == "user"` and truthy (present, non-empty) conversation id
and message text, run `processMessageAsync`.  Returns the HTTP status,
the final store, and the events in order (the `200` response strictly
first). -/
def webhookHandler (env : Env) (store : Store) (b : WebhookBody) :
    Nat × Store × List Ev :=
  if b.action = some "message_create" ∧ b.actorType = some "user" then
    match b.conversationId, b.messageContent with
    | some cid, some msg =>
      if cid = "" ∨ msg = [] then (200, store, [Ev.respond 200])
      else
        match processMessageAsync env store cid msg with
        | (store', tr) => (200, store', Ev.respond 200 :: tr)
    | _, _ => (200, store, [Ev.respond 200])
  else (200, store, [Ev.respond 200])

/-! ## Helper lemmas -/

theorem pollItersGo_le (statuses : Nat → String) :
    ∀ fuel st attempts, pollItersGo statuses fuel st attempts ≤ fuel := by
  intro fuel
  induction fuel with
  | zero => intro st attempts; simp [pollItersGo]
  | succ fuel ih =>
    intro st attempts
    simp only [pollItersGo]
    split
    · omega
    · split
      · omega
      · have := ih (statuses (attempts + 1)) (attempts + 1)
        omega

theorem pollGo_ok_bound (statuses : Nat → String) :
    ∀ fuel st attempts st' a', pollGo statuses fuel st attempts = .ok (st', a') →
      a' ≤ attempts + fuel := by
  intro fuel
  induction fuel with
  | zero =>
    intro st attempts st' a' h
    simp only [pollGo] at h
    cases h
    omega
  | succ fuel ih =>
    intro st attempts st' a' h
    simp only [pollGo] at h
    split at h
    · cases h; omega
    · split at h
      · cases h
      · have := ih (statuses (attempts + 1)) (attempts + 1) st' a' h
        omega

theorem pollGo_error (statuses : Nat → String) :
    ∀ fuel st attempts e, pollGo statuses fuel st attempts = .error e →
      e = Err.text "Assistant run failed" ∨ e = Err.text "Assistant run expired" := by
  intro fuel
  induction fuel with
  | zero => intro st attempts e h; simp [pollGo] at h
  | succ fuel ih =>
    intro st attempts e h
    simp only [pollGo] at h
    split at h
    · cases h
    · rename_i hne
      split at h
      · rename_i hfe
        cases h
        rcases hfe with hf | hf <;> rw [hf] <;> simp
      · exact ih (statuses (attempts + 1)) (attempts + 1) e h

/-! ## Claim theorems: webhook filtering and acknowledgment ordering -/

/-- C1: for every inbound webhook event whose action is not
`message_create` or whose actor kind is not `user`, the handler
acknowledges with 200 and invokes nothing downstream: the store is
returned untouched and the event trace is exactly the acknowledgment,
with no assistant call, store access, delivery or escalation event. -/
theorem webhook_ignores_irrelevant_events (env : Env) (store : Store) (b : WebhookBody)
    (h : b.action ≠ some "message_create" ∨ b.actorType ≠ some "user") :
    webhookHandler env store b = (200, store, [Ev.respond 200]) := by
  have h' : ¬(b.action = some "message_create" ∧ b.actorType = some "user") := by tauto
  simp [webhookHandler, h']

def store0 : Store := fun _ => none

def asstOk : AsstEnv :=
  { createThread := .ok "th_1", msgCreate := fun _ => .ok (), runCreate := .ok (),
    statuses := fun _ => "completed", latestMessage := "Hi there.".toList }

def fcOk : FcEnv :=
  { sendPrimary := fun _ _ => SendOutcome.ok "sent", sendAlt := fun _ _ => SendOutcome.ok "sent-alt",
    assign := fun _ => .ok () }

def envOk : Env := ⟨asstOk, fcOk⟩

theorem webhook_ignores_irrelevant_events_witness :
    webhookHandler envOk store0 ⟨some "conversation_resolution", some "agent", some "c1", some "hello".toList⟩ =
      (200, store0, [Ev.respond 200]) :=
  webhook_ignores_irrelevant_events envOk store0 _ (Or.inl (by decide))

/-- C2: for every valid user-message event, the handler returns status 200
and its event trace starts with the acknowledgment, strictly before every
event of the asynchronously dispatched turn processing; the status is 200
for every environment (every possible downstream behavior), so no
downstream failure can alter the already-sent response. -/
theorem ack_precedes_async_dispatch (env : Env) (store : Store) (b : WebhookBody)
    (cid : String) (msg : List Char)
    (ha : b.action = some "message_create") (hu : b.actorType = some "user")
    (hc : b.conversationId = some cid) (hm : b.messageContent = some msg)
    (hc0 : cid ≠ "") (hm0 : msg ≠ []) :
    (webhookHandler env store b).1 = 200 ∧
    (webhookHandler env store b).2.2 =
      Ev.respond 200 :: (processMessageAsync env store cid msg).2 := by
  obtain ⟨ba, bu, bc, bm⟩ := b
  cases ha; cases hu; cases hc; cases hm
  have hcm : ¬(cid = "" ∨ msg = []) := by tauto
  rcases hp : processMessageAsync env store cid msg with ⟨store', tr⟩
  simp [webhookHandler, hcm, hp]

theorem ack_precedes_async_dispatch_witness :
    (webhookHandler envOk store0 ⟨some "message_create", some "user", some "c1", some "What are your hours?".toList⟩).1 = 200 ∧
    (webhookHandler envOk store0 ⟨some "message_create", some "user", some "c1", some "What are your hours?".toList⟩).2.2 =
      Ev.respond 200 :: (processMessageAsync envOk store0 "c1" "What are your hours?".toList).2 :=
  ack_precedes_async_dispatch envOk store0 _ "c1" "What are your hours?".toList
    rfl rfl rfl rfl (by decide) (by decide)

/-! ## Claim theorems: the assistant poll loop -/

/-- C8: the poll loop always terminates within the attempt budget: the
number of in-loop retrievals (each preceded by the fixed 1-second sleep)
is at most `maxAttempts = 60`; every error it raises itself is the
terminal `failed`/`expired` failure; and when the loop exits after
exhausting the budget the routine reports the terminal timeout failure. -/
theorem poll_loop_bounded_terminal (statuses : Nat → String) (latest : List Char) :
    pollIters statuses ≤ maxAttempts ∧
    (∀ e, pollLoop statuses (statuses 0) 0 = .error e →
        e = Err.text "Assistant run failed" ∨ e = Err.text "Assistant run expired") ∧
    (∀ st a, pollLoop statuses (statuses 0) 0 = .ok (st, a) →
        a ≤ maxAttempts ∧
        (maxAttempts ≤ a →
          getReplyPoll statuses latest = .error (Err.text "Assistant response timeout"))) := by
  refine ⟨pollItersGo_le statuses maxAttempts (statuses 0) 0, ?_, ?_⟩
  · intro e h
    exact pollGo_error statuses (maxAttempts - 0) (statuses 0) 0 e h
  · intro st a h
    have hb := pollGo_ok_bound statuses (maxAttempts - 0) (statuses 0) 0 st a h
    refine ⟨by omega, ?_⟩
    intro hge
    simp only [getReplyPoll, pollLoop] at h ⊢
    rw [h]
    simp [hge]

theorem poll_loop_bounded_terminal_witness :
    (0 ≤ maxAttempts ∧
      (maxAttempts ≤ 0 →
        getReplyPoll (fun _ => "completed") [] = .error (Err.text "Assistant response timeout"))) ∧
    pollIters (fun _ => "completed") ≤ maxAttempts :=
  ⟨(poll_loop_bounded_terminal (fun _ => "completed") []).2.2 "completed" 0 rfl,
   (poll_loop_bounded_terminal (fun _ => "completed") []).1⟩

/-- The run-status sequence on which the code contradicts C7: every
retrieval up to the 59th reports `in_progress`, the 60th retrieval (the
final one the loop may perform) reports `completed`. -/
def statusesLateComplete : Nat → String := fun n => if n < 60 then "in_progress" else "completed"

/-- A contrast sequence: completion is observed on the 59th retrieval. -/
def statusesEarlyComplete : Nat → String := fun n => if n < 59 then "in_progress" else "completed"

/-- C7 (code bug): when the run status reaches `completed` on the final
permitted attempt (the 60th in-loop retrieval, `attempts = 60`), the loop
exits with status `completed`, yet the `attempts >= maxAttempts` check
makes `getAssistantResponse` throw `Assistant response timeout` instead
of fetching the completed reply.  Completion observed one attempt
earlier is handled as the claim and the spec describe. -/
theorem poll_completed_at_cap_reports_timeout :
    statusesLateComplete maxAttempts = "completed" ∧
    pollLoop statusesLateComplete (statusesLateComplete 0) 0 = .ok ("completed", maxAttempts) ∧
    getReplyPoll statusesLateComplete "All done.".toList =
      .error (Err.text "Assistant response timeout") ∧
    getReplyPoll statusesEarlyComplete "All done.".toList = .ok "All done.".toList :=
  ⟨rfl, rfl, rfl, rfl⟩

/-! ## Claim theorems: chat-platform delivery retry -/

/-- Chat-platform oracle rejecting the primary payload with the
client-error status 404 while the alternative payload would be accepted. -/
def fc404 : FcEnv :=
  { sendPrimary := fun _ _ => SendOutcome.err (some 404),
    sendAlt := fun _ _ => SendOutcome.ok "alt-accepted", assign := fun _ => .ok () }

/-- Chat-platform oracle rejecting the primary payload with status 400. -/
def fc400 : FcEnv :=
  { sendPrimary := fun _ _ => SendOutcome.err (some 400),
    sendAlt := fun _ _ => SendOutcome.ok "alt-accepted", assign := fun _ => .ok () }

/-- C3 counterexample: on a client-error status other than 400 (here 404)
the code does NOT retry with the alternative payload shape, even though
the alternative would have been accepted: exactly one delivery attempt is
made and the failure propagates. -/
theorem send_no_retry_on_404_cex :
    sendT fc404 "c1" "Hello.".toList =
      ([Ev.deliverPrimary "c1" "Hello.".toList], .error (Err.http (some 404))) ∧
    Ev.deliverAlt "c1" "Hello.".toList ∉ (sendT fc404 "c1" "Hello.".toList).1 :=
  ⟨rfl, by decide⟩

/-- C3 as amended: `sendMessage` makes at most two delivery attempts, the
alternative payload being attempted exactly when the primary POST fails
with HTTP status exactly 400 (not on other client-error statuses, which
propagate immediately with a single attempt); when the 400-triggered
retry also fails, that failure propagates to the caller. -/
theorem send_retries_once_on_400 (env : FcEnv) (cid : String) (text : List Char) :
    ((sendT env cid text).1 = [Ev.deliverPrimary cid text] ∨
      (sendT env cid text).1 = [Ev.deliverPrimary cid text, Ev.deliverAlt cid text]) ∧
    (∀ d, env.sendPrimary cid text = SendOutcome.ok d →
        sendT env cid text = ([Ev.deliverPrimary cid text], .ok d)) ∧
    (∀ s, env.sendPrimary cid text = SendOutcome.err s → s ≠ some 400 →
        sendT env cid text = ([Ev.deliverPrimary cid text], .error (Err.http s))) ∧
    (env.sendPrimary cid text = SendOutcome.err (some 400) →
        (sendT env cid text).1 = [Ev.deliverPrimary cid text, Ev.deliverAlt cid text] ∧
        (∀ d, env.sendAlt cid text = SendOutcome.ok d → (sendT env cid text).2 = .ok d) ∧
        (∀ s', env.sendAlt cid text = SendOutcome.err s' →
            (sendT env cid text).2 = .error (Err.http s'))) := by
  refine ⟨?_, ?_, ?_, ?_⟩
  · cases hp : env.sendPrimary cid text with
    | ok d => simp [sendT, hp]
    | err s =>
      by_cases h4 : s = some 400
      · cases ha : env.sendAlt cid text <;> simp [sendT, hp, h4, ha]
      · simp [sendT, hp, h4]
  · intro d hp; simp [sendT, hp]
  · intro s hp h4; simp [sendT, hp, h4]
  · intro hp
    refine ⟨?_, ?_, ?_⟩
    · cases ha : env.sendAlt cid text <;> simp [sendT, hp, ha]
    · intro d ha; simp [sendT, hp, ha]
    · intro s' ha; simp [sendT, hp, ha]

theorem send_retries_once_on_400_witness :
    (sendT fc400 "c1" "Hello.".toList).1 =
      [Ev.deliverPrimary "c1" "Hello.".toList, Ev.deliverAlt "c1" "Hello.".toList] ∧
    (sendT fc400 "c1" "Hello.".toList).2 = .ok "alt-accepted" := by
  have h := (send_retries_once_on_400 fc400 "c1" "Hello.".toList).2.2.2 rfl
  exact ⟨h.1, h.2.1 "alt-accepted" rfl⟩

/-! ## Claim theorems: the escalation parser, marker-free direction -/

/-- C9: a raw reply with no occurrence of the escalation marker passes
through the parse step unchanged: the clean reply is the raw input
character for character, `needsEscalation` is false and the escalation
reason is empty. -/
theorem parse_no_marker_identity (raw : List Char)
    (h : hasSub esc_marker raw = false) :
    parseEsc raw = { cleanReply := raw, needsEscalation := false, escalationReason := [] } := by
  simp [parseEsc, h]

theorem parse_no_marker_identity_witness :
    parseEsc "We are open 9-5.".toList =
      { cleanReply := "We are open 9-5.".toList, needsEscalation := false,
        escalationReason := [] } :=
  parse_no_marker_identity "We are open 9-5.".toList (by decide)

/-! ## The escalation parser, marker-containing direction -/

/-- The marker without its first character, used to analyse occurrences
that start at the head of a list. -/
def esc_markerTail : List Char := "SCALATE_TO_HUMAN".toList

/-- Does the list, right after a marker occurrence, continue with a colon
and a character the regex dot can match (the shape both regexes need)? -/
def colonLineHead : List Char → Bool
  | b0 :: b1 :: _ => b0 = ':' && !(isJsDotNL b1)
  | _ => false

/-- Every occurrence of the marker in the list is immediately followed by
a colon and a non-line-terminator character (executable form). -/
def OccOkB : List Char → Bool
  | [] => true
  | c :: t => (!(esc_marker.isPrefixOf (c :: t)) || colonLineHead ((c :: t).drop 17)) && OccOkB t

/-- Every occurrence of the marker is immediately followed by a colon and
a non-line-terminator character (propositional form). -/
def OccOk (l : List Char) : Prop :=
  ∀ a b, l = a ++ esc_marker ++ b → ∃ c d, b = ':' :: c :: d ∧ isJsDotNL c = false

theorem hasSub_iff (sub : List Char) : ∀ l, hasSub sub l = true ↔ sub <:+: l := by
  intro l
  induction l with
  | nil => simp [hasSub]
  | cons c t ih => simp [hasSub, ih, List.infix_cons_iff]

theorem dropLine_length (l : List Char) : (dropLine l).length ≤ l.length := by
  induction l with
  | nil => simp [dropLine]
  | cons c t ih =>
    simp only [dropLine]
    split
    · simp
    · simp only [List.length_cons]
      omega

theorem dropLine_suffix (l : List Char) : dropLine l <:+ l := by
  induction l with
  | nil => exact List.suffix_rfl
  | cons c t ih =>
    simp only [dropLine]
    split
    · exact List.suffix_rfl
    · exact ih.trans (List.suffix_cons c t)

theorem dropLine_shape (l : List Char) :
    dropLine l = [] ∨ ∃ c t, dropLine l = c :: t ∧ isJsDotNL c = true := by
  induction l with
  | nil => left; rfl
  | cons c t ih =>
    by_cases h : isJsDotNL c
    · right; exact ⟨c, t, by simp [dropLine, h], h⟩
    · simpa [dropLine, h] using ih

theorem OccOk_suffix {l' l : List Char} (h : l' <:+ l) (ho : OccOk l) : OccOk l' := by
  rcases h with ⟨p, hp⟩
  intro a b heq
  exact ho (p ++ a) b (by rw [← hp, heq]; simp)

theorem OccOkB_sound : ∀ l, OccOkB l = true → OccOk l := by
  intro l
  induction l with
  | nil =>
    intro _ a b heq
    exfalso
    have hlen := congrArg List.length heq
    have h17 : esc_marker.length = 17 := by decide
    simp [List.length_append, h17] at hlen
    omega
  | cons c t ih =>
    intro h a b heq
    have h' : (!(esc_marker.isPrefixOf (c :: t)) || colonLineHead ((c :: t).drop 17)) = true
        ∧ OccOkB t = true := by
      simpa [OccOkB, Bool.and_eq_true] using h
    cases a with
    | nil =>
      simp only [List.nil_append] at heq
      have hpre : esc_marker.isPrefixOf (c :: t) = true := by
        rw [ List.isPrefixOf_iff_prefix]
        exact ⟨b, heq.symm⟩
      have hcl : colonLineHead ((c :: t).drop 17) = true := by
        have := h'.1
        rw [hpre] at this
        simpa using this
      have h17 : esc_marker.length = 17 := by decide
      have hdrop : (c :: t).drop 17 = b := by
        rw [heq, ← h17, List.drop_left]
      rw [hdrop] at hcl
      match b, hcl with
      | b0 :: b1 :: brest, hcl =>
        have hshape : b0 = ':' ∧ isJsDotNL b1 = false := by
          simpa [colonLineHead] using hcl
        exact ⟨b1, brest, by rw [hshape.1], hshape.2⟩
    | cons a0 a' =>
      have heq' : t = a' ++ esc_marker ++ b := by
        have := heq
        simp only [List.cons_append, List.cons.injEq] at this
        exact this.2
      exact ih h'.2 a' b heq'

theorem replAllGo_prefix_clean :
    ∀ fuel (l x : List Char), l.length ≤ fuel → (∀ c ∈ x, isJsDotNL c = false) →
      x <+: replAllGo fuel l → x <+: l := by
  intro fuel
  induction fuel with
  | zero =>
    intro l x hl hx hp
    simp only [replAllGo] at hp
    rw [List.prefix_nil.mp hp]
    exact List.nil_prefix
  | succ fuel ih =>
    intro l x hl hx hp
    cases l with
    | nil =>
      simp only [replAllGo] at hp
      rw [List.prefix_nil.mp hp]
    | cons c t =>
      have ht : t.length ≤ fuel := by
        simp only [List.length_cons] at hl
        omega
      simp only [replAllGo] at hp
      split at hp
      · have hlen : (dropLine ((c :: t).drop 18)).length ≤ fuel := by
          have h1 := dropLine_length ((c :: t).drop 18)
          have h2 : ((c :: t).drop 18).length = t.length + 1 - 18 := by simp
          omega
        have hx' := ih _ x hlen hx hp
        rcases dropLine_shape ((c :: t).drop 18) with hsh | ⟨r, t', hsh, hterm⟩
        · rw [hsh] at hx'
          rw [List.prefix_nil.mp hx']
          exact List.nil_prefix
        · rw [hsh] at hx'
          rcases List.prefix_cons_iff.mp hx' with hx0 | ⟨t'', hx0, _⟩
          · rw [hx0]; exact List.nil_prefix
          · exfalso
            have hr : isJsDotNL r = false := hx r (by rw [hx0]; exact List.mem_cons_self r t'')
            rw [hr] at hterm
            cases hterm
      · rcases List.prefix_cons_iff.mp hp with hx0 | ⟨x', hx0, hx'p⟩
        · rw [hx0]; exact List.nil_prefix
        · rw [hx0]
          have hx'' := ih t x' ht
            (fun ch hch => hx ch (by rw [hx0]; exact List.mem_cons_of_mem c hch)) hx'p
          exact List.cons_prefix_cons.mpr ⟨rfl, hx''⟩

theorem replAllGo_no_marker :
    ∀ fuel (l : List Char), l.length ≤ fuel → OccOk l →
      ¬ esc_marker <:+: replAllGo fuel l := by
  intro fuel
  induction fuel with
  | zero =>
    intro l hl ho hinf
    simp only [replAllGo] at hinf
    exact (by decide : esc_marker ≠ []) (List.infix_nil.mp hinf)
  | succ fuel ih =>
    intro l hl ho hinf
    cases l with
    | nil =>
      simp only [replAllGo] at hinf
      exact (by decide : esc_marker ≠ []) (List.infix_nil.mp hinf)
    | cons c t =>
      have ht : t.length ≤ fuel := by
        simp only [List.length_cons] at hl
        omega
      simp only [replAllGo] at hinf
      split at hinf
      · rename_i hcond
        have hlen : (dropLine ((c :: t).drop 18)).length ≤ fuel := by
          have h1 := dropLine_length ((c :: t).drop 18)
          have h2 : ((c :: t).drop 18).length = t.length + 1 - 18 := by simp
          omega
        have hsuf : dropLine ((c :: t).drop 18) <:+ c :: t :=
          (dropLine_suffix _).trans (List.drop_suffix 18 (c :: t))
        exact ih _ hlen (OccOk_suffix hsuf ho) hinf
      · rename_i hcond
        rcases List.infix_cons_iff.mp hinf with hpre | hinf'
        · rcases List.prefix_cons_iff.mp hpre with h0 | ⟨mt, hm, hmt⟩
          · exact (by decide : esc_marker ≠ []) h0
          · have hconc : esc_marker = 'E' :: esc_markerTail := by decide
            have hcm : c = 'E' ∧ mt = esc_markerTail := by
              rw [hconc] at hm
              exact ⟨(List.cons.injEq _ _ _ _ |>.mp hm).1.symm,
                     (List.cons.injEq _ _ _ _ |>.mp hm).2.symm⟩
            have hclean : ∀ ch ∈ esc_markerTail, isJsDotNL ch = false := by decide
            have hmt' : esc_markerTail <+: t := by
              apply replAllGo_prefix_clean fuel t esc_markerTail ht hclean
              rw [← hcm.2]
              exact hmt
            rcases hmt' with ⟨w, hw⟩
            have hl_eq : c :: t = esc_marker ++ w := by
              rw [hcm.1, ← hw, hconc]
              rfl
            rcases ho [] w (by simpa using hl_eq) with ⟨ch, d, hwshape, hch⟩
            apply hcond
            have hmc : esc_markerColon = esc_marker ++ [':'] := by decide
            have hsplit : c :: t = esc_markerColon ++ (ch :: d) := by
              rw [hl_eq, hwshape, hmc]
              simp
            constructor
            · rw [ List.isPrefixOf_iff_prefix]
              exact ⟨ch :: d, hsplit.symm⟩
            · have h18 : esc_markerColon.length = 18 := by decide
              have hdrop : (c :: t).drop 18 = ch :: d := by
                rw [hsplit, ← h18, List.drop_left]
              rw [hdrop]
              simp [lineHead, hch]
        · exact ih t ht (OccOk_suffix (List.suffix_cons c t) ho) hinf'

theorem jsTrim_isInfix (l : List Char) : jsTrim l <:+: l := by
  unfold jsTrim
  exact List.IsInfix.trans
    (List.IsPrefix.isInfix (List.rdropWhile_prefix isJsWS (l.dropWhile isJsWS)))
    (List.IsSuffix.isInfix (List.dropWhile_suffix isJsWS))

/-- C4 counterexample: the raw reply consisting of exactly the marker
token (no colon) is detected (`needsEscalation = true`), but the removal
regex `/ESCALATE_TO_HUMAN:.+/g` requires a colon and trailing text, so
the clean reply still contains the marker substring. -/
theorem parse_marker_survives_cex :
    (parseEsc esc_marker).needsEscalation = true ∧
    hasSub esc_marker (parseEsc esc_marker).cleanReply = true := by decide

/-- C4 as amended: for every raw reply containing the escalation marker,
the parser returns `needsEscalation = true`; and whenever every
occurrence of the marker is immediately followed by a colon and at least
one same-line (non-line-terminator) character — the shape the removal
regex `/ESCALATE_TO_HUMAN:.+/g` requires — the clean reply does not
contain the marker substring anywhere.  (A marker occurrence without
that colon-and-text continuation, e.g. a bare `ESCALATE_TO_HUMAN`, is
not removed: see the counterexample.) -/
theorem parse_escalation_marker_stripped (raw : List Char)
    (h : hasSub esc_marker raw = true) :
    (parseEsc raw).needsEscalation = true ∧
    (OccOkB raw = true → hasSub esc_marker (parseEsc raw).cleanReply = false) := by
  constructor
  · simp [parseEsc, h]
  · intro hocc
    have ho : OccOk raw := OccOkB_sound raw hocc
    have hno : ¬ esc_marker <:+: replAll raw :=
      replAllGo_no_marker raw.length raw le_rfl ho
    have hcr : (parseEsc raw).cleanReply =
        (if jsTrim (replAll raw) = [] then handoffMsg else jsTrim (replAll raw)) := by
      simp [parseEsc, h]
    rw [hcr]
    split
    · decide
    · have hni : ¬ esc_marker <:+: jsTrim (replAll raw) :=
        fun hi => hno (List.IsInfix.trans hi (jsTrim_isInfix _))
      exact Bool.eq_false_iff.mpr (fun htr => hni ((hasSub_iff _ _).mp htr))

theorem parse_escalation_marker_stripped_witness :
    (parseEsc "I cannot help. ESCALATE_TO_HUMAN: billing dispute".toList).needsEscalation = true ∧
    hasSub esc_marker
      (parseEsc "I cannot help. ESCALATE_TO_HUMAN: billing dispute".toList).cleanReply = false :=
  ⟨(parse_escalation_marker_stripped _ (by decide)).1,
   (parse_escalation_marker_stripped _ (by decide)).2 (by decide)⟩

/-! ## Orchestration lemmas -/

theorem sendT_attempts (env : FcEnv) (cid : String) (text : List Char) :
    (sendT env cid text).1 = [Ev.deliverPrimary cid text] ∨
    (sendT env cid text).1 = [Ev.deliverPrimary cid text, Ev.deliverAlt cid text] := by
  cases hp : env.sendPrimary cid text with
  | ok d => simp [sendT, hp]
  | err s =>
    by_cases h4 : s = some 400
    · cases ha : env.sendAlt cid text <;> simp [sendT, hp, h4, ha]
    · simp [sendT, hp, h4]

/-- The catch-all in `processMessageAsync` never changes the store: the
returned store is whatever the body had mutated when it finished or threw. -/
theorem processMessageAsync_store (env : Env) (store : Store) (cid : String) (msg : List Char) :
    (processMessageAsync env store cid msg).1 = (processBody env store cid msg).1 := by
  unfold processMessageAsync
  rcases hb : processBody env store cid msg with ⟨s', tr, e?⟩
  cases e? with
  | none => rfl
  | some e =>
    rcases hS : sendT env.fc cid apologyMsg with ⟨trS, rS⟩
    cases rS with
    | error e2 => simp [assignT]
    | ok d =>
      cases hA : env.fc.assign cid <;> simp [assignT, hA]

/-- After a successful assistant call the body has written the returned
thread id into the store, whatever happens later in the turn. -/
theorem processBody_store_ok (env : Env) (store : Store) (cid : String) (msg : List Char)
    (trA : List Ev) (res : AssistantResult)
    (h : getAssistantResponseT env.asst msg (store cid) = (trA, .ok res)) :
    (processBody env store cid msg).1 = setStore store cid res.threadId := by
  rcases hS : sendT env.fc cid res.response with ⟨trS, rS⟩
  rcases hG : assignT env.fc cid with ⟨trG, rG⟩
  rcases hF : sendT env.fc cid followUpMsg with ⟨trF, rF⟩
  cases rS with
  | error e => simp [processBody, h, hS]
  | ok d =>
    by_cases hne : res.needsEscalation = true
    · cases rG with
      | error e => simp [processBody, h, hS, hG, hne]
      | ok u => cases rF <;> simp [processBody, h, hS, hG, hF, hne]
    · simp [processBody, h, hS, hne]

/-- The turn trace always starts with the store lookup followed by the
events of the assistant call. -/
theorem processBody_trace_shape (env : Env) (store : Store) (cid : String) (msg : List Char) :
    ∃ rest, (processBody env store cid msg).2.1 =
      Ev.storeGet cid :: (getAssistantResponseT env.asst msg (store cid)).1 ++ rest := by
  rcases hA : getAssistantResponseT env.asst msg (store cid) with ⟨trA, rA⟩
  cases rA with
  | error e => exact ⟨[], by simp [processBody, hA]⟩
  | ok res =>
    rcases hS : sendT env.fc cid res.response with ⟨trS, rS⟩
    cases rS with
    | error e =>
      exact ⟨Ev.storeSet cid res.threadId :: trS,
        by simp [processBody, hA, hS, List.append_assoc]⟩
    | ok d =>
      by_cases hne : res.needsEscalation = true
      · rcases hG : assignT env.fc cid with ⟨trG, rG⟩
        cases rG with
        | error e =>
          exact ⟨Ev.storeSet cid res.threadId :: (trS ++ trG),
            by simp [processBody, hA, hS, hG, hne, List.append_assoc]⟩
        | ok u =>
          rcases hF : sendT env.fc cid followUpMsg with ⟨trF, rF⟩
          cases rF with
          | error e =>
            exact ⟨Ev.storeSet cid res.threadId :: (trS ++ trG ++ trF),
              by simp [processBody, hA, hS, hG, hF, hne, List.append_assoc]⟩
          | ok d2 =>
            exact ⟨Ev.storeSet cid res.threadId :: (trS ++ trG ++ trF),
              by simp [processBody, hA, hS, hG, hF, hne, List.append_assoc]⟩
      · exact ⟨Ev.storeSet cid res.threadId :: trS,
          by simp [processBody, hA, hS, hne, List.append_assoc]⟩

theorem processMessageAsync_trace_shape (env : Env) (store : Store) (cid : String)
    (msg : List Char) :
    ∃ rest, (processMessageAsync env store cid msg).2 =
      Ev.storeGet cid :: (getAssistantResponseT env.asst msg (store cid)).1 ++ rest := by
  rcases processBody_trace_shape env store cid msg with ⟨rest0, h0⟩
  unfold processMessageAsync
  rcases hb : processBody env store cid msg with ⟨s', tr, e?⟩
  rw [hb] at h0
  simp only at h0
  cases e? with
  | none => exact ⟨rest0, h0⟩
  | some e =>
    rcases hS : sendT env.fc cid apologyMsg with ⟨trS, rS⟩
    cases rS with
    | error e2 =>
      exact ⟨rest0 ++ Ev.logError e :: (trS ++ [Ev.logFallback e2]), by
        simp [assignT, h0, List.append_assoc]⟩
    | ok d =>
      cases hA : env.fc.assign cid with
      | error e2 =>
        exact ⟨rest0 ++ Ev.logError e :: (trS ++ [Ev.assign cid] ++ [Ev.logFallback e2]), by
          simp [assignT, hA, h0, List.append_assoc]⟩
      | ok u =>
        exact ⟨rest0 ++ Ev.logError e :: (trS ++ [Ev.assign cid]), by
          simp [assignT, hA, h0, List.append_assoc]⟩

/-- The assistant client, given a thread id, uses it verbatim: its event
trace is exactly the thread-use event. -/
theorem getAssistant_some_trace (a : AsstEnv) (m : List Char) (t : String) :
    (getAssistantResponseT a m (some t)).1 = [Ev.threadUse (some t) t] := by
  unfold getAssistantResponseT getAssistantCore
  cases h1 : a.msgCreate m with
  | error e => rfl
  | ok u =>
    cases h2 : a.runCreate with
    | error e => rfl
    | ok u2 =>
      cases h3 : getReplyPoll a.statuses a.latestMessage <;> rfl

/-- On success the assistant client reports exactly the thread id it ran on. -/
theorem getAssistantCore_threadId (a : AsstEnv) (m : List Char) (s : Option String)
    (tid : String) (pre : List Ev) (tr : List Ev) (r : AssistantResult)
    (h : getAssistantCore a m s tid pre = (tr, .ok r)) : r.threadId = tid := by
  unfold getAssistantCore at h
  split at h
  · simp at h
  · split at h
    · simp at h
    · split at h
      · simp at h
      · simp only [Prod.mk.injEq, Except.ok.injEq] at h
        rw [← h.2]

theorem getAssistantCore_trace (a : AsstEnv) (m : List Char) (s : Option String)
    (tid : String) (pre : List Ev) :
    (getAssistantCore a m s tid pre).1 = pre ++ [Ev.threadUse s tid] := by
  unfold getAssistantCore
  cases h1 : a.msgCreate m with
  | error e => rfl
  | ok u =>
    cases h2 : a.runCreate with
    | error e => rfl
    | ok u2 => cases h3 : getReplyPoll a.statuses a.latestMessage <;> rfl

theorem getAssistant_none_trace (a : AsstEnv) (m : List Char) (nid : String)
    (h : a.createThread = .ok nid) :
    (getAssistantResponseT a m none).1 = [Ev.threadCreate nid, Ev.threadUse none nid] := by
  simp [getAssistantResponseT, h, getAssistantCore_trace]

/-! ## Claim theorems: turn-processing error containment and state -/

/-- C5: whenever the body of the turn-processing routine fails at any
point (assistant lookup/call, delivery, escalation), the routine still
returns normally: it logs the error, then attempts to deliver the fixed
apology message (the fallback trace starts with that delivery attempt);
when the apology delivery succeeds it invokes the escalation call; when
the apology delivery fails the escalation is not attempted and the
failure is only logged (the fallback trace ends with the log event); and
when the escalation call fails that too is only logged.  The routine is
total — it returns a store and a trace for every environment — so no
error propagates to its caller. -/
theorem process_async_never_propagates (env : Env) (store : Store)
    (cid : String) (msg : List Char) (store' : Store) (tr : List Ev) (e : Err)
    (hb : processBody env store cid msg = (store', tr, some e)) :
    ∃ fb, processMessageAsync env store cid msg = (store', tr ++ Ev.logError e :: fb) ∧
      fb.head? = some (Ev.deliverPrimary cid apologyMsg) ∧
      (∀ d, (sendT env.fc cid apologyMsg).2 = .ok d → Ev.assign cid ∈ fb) ∧
      (∀ e2, (sendT env.fc cid apologyMsg).2 = .error e2 →
          fb.getLast? = some (Ev.logFallback e2) ∧ ∀ x, Ev.assign x ∉ fb) ∧
      (∀ d e2, (sendT env.fc cid apologyMsg).2 = .ok d → env.fc.assign cid = .error e2 →
          fb.getLast? = some (Ev.logFallback e2)) := by
  have htrS := sendT_attempts env.fc cid apologyMsg
  rcases hS : sendT env.fc cid apologyMsg with ⟨trS, rS⟩
  rw [hS] at htrS
  simp only at htrS
  cases rS with
  | ok d =>
    cases hA : env.fc.assign cid with
    | ok u =>
      refine ⟨trS ++ [Ev.assign cid], ?_, ?_, ?_, ?_, ?_⟩
      · simp [processMessageAsync, hb, hS, assignT, hA]
      · rcases htrS with h | h <;> rw [h] <;> rfl
      · intro d' _
        exact List.mem_append_right _ (List.mem_cons_self _ _)
      · intro e2 hcontra
        exact absurd hcontra (by simp)
      · intro d' e2 _ hA2
        exact absurd hA2 (by simp)
    | error e2 =>
      refine ⟨trS ++ [Ev.assign cid] ++ [Ev.logFallback e2], ?_, ?_, ?_, ?_, ?_⟩
      · simp [processMessageAsync, hb, hS, assignT, hA, List.append_assoc]
      · rcases htrS with h | h <;> rw [h] <;> rfl
      · intro d' _
        exact List.mem_append_left _ (List.mem_append_right _ (List.mem_cons_self _ _))
      · intro e2' hcontra
        exact absurd hcontra (by simp)
      · intro d' e2' _ hA2
        have he : e2' = e2 := ((Except.error.injEq _ _).mp hA2).symm
        rw [he]
        exact List.getLast?_concat _
  | error e2 =>
    refine ⟨trS ++ [Ev.logFallback e2], ?_, ?_, ?_, ?_, ?_⟩
    · simp [processMessageAsync, hb, hS, List.append_assoc]
    · rcases htrS with h | h <;> rw [h] <;> rfl
    · intro d hcontra
      exact absurd hcontra (by simp)
    · intro e2' h2
      have he : e2' = e2 := by
        have h2' : Except.error e2 = (Except.error e2' : Except Err String) := by simpa using h2
        exact ((Except.error.injEq _ _).mp h2').symm
      constructor
      · rw [he]
        exact List.getLast?_concat _
      · intro x
        rcases htrS with h | h <;> rw [h] <;> simp
    · intro d e2' hcontra _
      exact absurd hcontra (by simp)

def asstFail : AsstEnv :=
  { createThread := .error (Err.text "thread create failed"), msgCreate := fun _ => .ok (),
    runCreate := .ok (), statuses := fun _ => "completed", latestMessage := [] }

def envFail : Env := ⟨asstFail, fcOk⟩

theorem process_async_never_propagates_witness :
    Ev.deliverPrimary "c1" apologyMsg ∈ (processMessageAsync envFail store0 "c1" "hi".toList).2 ∧
    Ev.assign "c1" ∈ (processMessageAsync envFail store0 "c1" "hi".toList).2 := by
  obtain ⟨fb, heq, hhead, hassign, _, _⟩ :=
    process_async_never_propagates envFail store0 "c1" "hi".toList store0
      [Ev.storeGet "c1"] (Err.text "thread create failed") rfl
  rw [heq]
  constructor
  · have hm : Ev.deliverPrimary "c1" apologyMsg ∈ fb := by
      cases fb with
      | nil => simp at hhead
      | cons x xs =>
        have hx : x = Ev.deliverPrimary "c1" apologyMsg := by simpa using hhead
        rw [hx]
        exact List.mem_cons_self _ _
    exact List.mem_append_right _ (List.mem_cons_of_mem _ hm)
  · have hm : Ev.assign "c1" ∈ fb := hassign "sent" rfl
    exact List.mem_append_right _ (List.mem_cons_of_mem _ hm)

/-- C6: across two sequential turns of one conversation, the second
turn's assistant call is given exactly the thread id the first turn
returned: (i) after a turn whose assistant call succeeded, the store
(a key-to-value map, hence at most one thread id per conversation) maps
the conversation id to the returned thread id; (ii) the second turn's
assistant-call trace contains the use of precisely that id; (iii) a
supplied id is passed verbatim — the assistant client's trace is exactly
the thread-use event, with no thread creation, and the result echoes the
supplied id; (iv) a thread is created only when no id is supplied. -/
theorem thread_id_reused_across_turns (env₁ env₂ : Env) (store₀ : Store) (cid : String)
    (msg₁ msg₂ : List Char) (tr₁ : List Ev) (res₁ : AssistantResult)
    (h1 : getAssistantResponseT env₁.asst msg₁ (store₀ cid) = (tr₁, .ok res₁)) :
    (processMessageAsync env₁ store₀ cid msg₁).1 cid = some res₁.threadId ∧
    Ev.threadUse (some res₁.threadId) res₁.threadId ∈
      (processMessageAsync env₂ (processMessageAsync env₁ store₀ cid msg₁).1 cid msg₂).2 ∧
    (∀ (a : AsstEnv) (m : List Char) (t : String),
      (getAssistantResponseT a m (some t)).1 = [Ev.threadUse (some t) t] ∧
      (∀ tr r, getAssistantResponseT a m (some t) = (tr, .ok r) → r.threadId = t)) ∧
    (∀ (a : AsstEnv) (m : List Char) (nid : String), a.createThread = .ok nid →
      (getAssistantResponseT a m none).1 = [Ev.threadCreate nid, Ev.threadUse none nid]) := by
  have hstore : (processMessageAsync env₁ store₀ cid msg₁).1 =
      setStore store₀ cid res₁.threadId := by
    rw [processMessageAsync_store]
    exact processBody_store_ok env₁ store₀ cid msg₁ tr₁ res₁ h1
  have hcid : (processMessageAsync env₁ store₀ cid msg₁).1 cid = some res₁.threadId := by
    rw [hstore]
    simp [setStore]
  refine ⟨hcid, ?_, ?_, ?_⟩
  · rcases processMessageAsync_trace_shape env₂ ((processMessageAsync env₁ store₀ cid msg₁).1)
      cid msg₂ with ⟨rest, hsh⟩
    rw [hsh, hcid, getAssistant_some_trace]
    simp
  · intro a m t
    refine ⟨getAssistant_some_trace a m t, ?_⟩
    intro tr r h
    exact getAssistantCore_threadId a m (some t) t [] tr r h
  · intro a m nid hc
    exact getAssistant_none_trace a m nid hc

def resW : AssistantResult :=
  { response := "Hi there.".toList, threadId := "th_1", needsEscalation := false,
    escalationReason := [] }

theorem thread_id_reused_across_turns_witness :
    (processMessageAsync envOk store0 "c1" "hello".toList).1 "c1" = some resW.threadId ∧
    Ev.threadUse (some resW.threadId) resW.threadId ∈
      (processMessageAsync envOk (processMessageAsync envOk store0 "c1" "hello".toList).1
        "c1" "and tomorrow?".toList).2 := by
  have h := thread_id_reused_across_turns envOk envOk store0 "c1" "hello".toList
    "and tomorrow?".toList [Ev.threadCreate "th_1", Ev.threadUse none "th_1"] resW rfl
  exact ⟨h.1, h.2.1⟩

/-- C10: when the assistant call of a turn succeeds and the delivery of
its reply then fails, the store still holds the new thread id for the
conversation: the store write is an event strictly between the assistant
call and the delivery attempts in the trace, and the store returned by
the routine (which then runs its fallback path) maps the conversation to
the new id — the write is never rolled back. -/
theorem store_write_survives_delivery_failure (env : Env) (store : Store)
    (cid : String) (msg : List Char) (trA : List Ev) (res : AssistantResult)
    (trS : List Ev) (e : Err)
    (hA : getAssistantResponseT env.asst msg (store cid) = (trA, .ok res))
    (hS : sendT env.fc cid res.response = (trS, .error e)) :
    (processMessageAsync env store cid msg).1 cid = some res.threadId ∧
    ∃ rest, (processMessageAsync env store cid msg).2 =
      Ev.storeGet cid :: trA ++ Ev.storeSet cid res.threadId :: trS ++ rest := by
  constructor
  · rw [processMessageAsync_store, processBody_store_ok env store cid msg trA res hA]
    simp [setStore]
  · have hbody : processBody env store cid msg =
        (setStore store cid res.threadId,
         Ev.storeGet cid :: trA ++ Ev.storeSet cid res.threadId :: trS, some e) := by
      simp [processBody, hA, hS, List.append_assoc]
    unfold processMessageAsync
    rw [hbody]
    rcases hS2 : sendT env.fc cid apologyMsg with ⟨trS2, rS2⟩
    cases rS2 with
    | ok d =>
      cases hA2 : env.fc.assign cid with
      | ok u =>
        exact ⟨Ev.logError e :: (trS2 ++ [Ev.assign cid]),
          by simp [hS2, assignT, hA2, List.append_assoc]⟩
      | error e2 =>
        exact ⟨Ev.logError e :: (trS2 ++ [Ev.assign cid] ++ [Ev.logFallback e2]),
          by simp [hS2, assignT, hA2, List.append_assoc]⟩
    | error e2 =>
      exact ⟨Ev.logError e :: (trS2 ++ [Ev.logFallback e2]),
        by simp [hS2, List.append_assoc]⟩

def fc500 : FcEnv :=
  { sendPrimary := fun _ _ => SendOutcome.err (some 500),
    sendAlt := fun _ _ => SendOutcome.ok "alt", assign := fun _ => .ok () }

def envDeliverFail : Env := ⟨asstOk, fc500⟩

theorem store_write_survives_delivery_failure_witness :
    (processMessageAsync envDeliverFail store0 "c1" "hello".toList).1 "c1" =
      some resW.threadId :=
  (store_write_survives_delivery_failure envDeliverFail store0 "c1" "hello".toList
    [Ev.threadCreate "th_1", Ev.threadUse none "th_1"] resW
    [Ev.deliverPrimary "c1" resW.response] (Err.http (some 500)) rfl rfl).1
